import Mathlib

/-!
# Verification of the Swiss-system tournament core (tournament.py)

A shallow embedding of `src/tournament.py`.  The database is modelled as an
in-memory state (`DB`): a `players` table and an append-only `match_history`
table.  Each Python function that reads and writes the database becomes a pure
Lean function on that state; a function that can raise an exception (index
error, failed row lookup) returns an `Option`/`Except` value instead.

Python-specific behaviour that matters here and is modelled faithfully:
* negative list indices wrap around (`standings[-1]` is the last element), and
  an out-of-range index raises `IndexError` (modelled as `none`);
* in `swissPairings` the bye-search loop
  `while checkBye(standings[len(standings)-k][0]) and len(standings)-k >= 0`
  evaluates its conjuncts left to right, so when `k` reaches `len+1` it reads
  `standings[-1]` (the last element) and then stops because `-1 >= 0` fails;
* `reportBye` opens its own connection and commits immediately, so a bye
  recorded by `swissPairings` persists even when the function later raises;
  therefore the pairing loop returns the list of byes recorded so far
  together with an `Option` for the value the Python function would return
  (`none` = the call raised instead of returning).
-/

namespace Tournament

/-- A row of the `players` table: (id, name, wins, losses, matches_played). -/
structure Player where
  id : Int
  name : String
  wins : Nat
  losses : Nat
  matches_played : Nat
deriving DecidableEq

/-- A row of the `match_history` table; `loser_id = -1` denotes a bye. -/
structure MatchRecord where
  winner_id : Int
  loser_id : Int
deriving DecidableEq

/-- The database state seen by tournament.py. -/
structure DB where
  players : List Player
  match_history : List MatchRecord
deriving DecidableEq

/-- A standings row `(id, name, wins, matches_played)` as returned by
`playerStandings` (the Python code uses fields 0 and 1 of each tuple). -/
structure Entry where
  id : Int
  name : String
  wins : Nat
  matches_played : Nat
deriving DecidableEq

/-- One element of the list returned by `swissPairings`:
`(id1, name1, id2, name2)`. -/
abbrev Pairing := Int × String × Int × String

/-- Error outcomes of an operation.  `typeError` stands for the Python
`TypeError` raised when `connect()` returns `None` and the caller unpacks it,
or when `fetchone()` returns `None` and the caller subscripts it. -/
inductive TError where
  | invalidPlayer
  | typeError
  | storeUnavailable
deriving DecidableEq

/-- Python `connect()` (tournament.py:9-16): on failure it catches every exception,
prints a message and falls off the end, returning `None`.  The parameter
`storeUp` says whether the database is reachable. -/
def connect (storeUp : Bool) : Option Unit :=
  if storeUp then some () else none

/-- Python `checkBye(p1)` (tournament.py:221-239): true iff the history holds a
record with `winner_id = p1 and loser_id = -1`. -/
def checkBye (hist : List MatchRecord) (p1 : Int) : Bool :=
  hist.any fun m => m.winner_id == p1 && m.loser_id == -1

/-- Python `rematchCheck(p1, p2)` (tournament.py:241-266): true iff the history
holds a record `(p1, p2)` or `(p2, p1)`. -/
def rematchCheck (hist : List MatchRecord) (p1 p2 : Int) : Bool :=
  hist.any fun m =>
    (m.winner_id == p1 && m.loser_id == p2) || (m.winner_id == p2 && m.loser_id == p1)

/-- Python `deleteMatches()` (tournament.py:18-30): zero every counter and clear the
match history. -/
def deleteMatches (db : DB) : DB :=
  { players := db.players.map fun p =>
      { p with wins := 0, losses := 0, matches_played := 0 }
    match_history := [] }

/-- Modelled from the spec: the `players` table schema (the SQL schema file is
not in src/).  A newly registered player starts with wins = 0, losses = 0,
matches_played = 0, and the Store assigns the id.  `registerPlayer(name)`
(tournament.py:51-65) inserts such a row. -/
def registerPlayer (db : DB) (pid : Int) (name : String) : DB :=
  { db with players := db.players ++ [⟨pid, name, 0, 0, 0⟩] }

/-- Whether a player id exists in the `players` table. -/
def hasPlayer (db : DB) (pid : Int) : Bool :=
  db.players.any (·.id == pid)

/-- The row update performed by query1 of `reportMatch` on one player row. -/
def bumpWinner (winner : Int) (p : Player) : Player :=
  if p.id == winner then
    { p with wins := p.wins + 1, matches_played := p.matches_played + 1 }
  else p

/-- The row update performed by query2 of `reportMatch` on one player row. -/
def bumpLoser (loser : Int) (p : Player) : Player :=
  if p.id == loser then
    { p with losses := p.losses + 1, matches_played := p.matches_played + 1 }
  else p

/-- Python `reportMatch(winner, loser)` (tournament.py:100-138).  The three writes
(winner update, loser update, history insert) are executed on one connection
and committed only after the two name lookups succeed; if either id is absent
the lookup via `fetchone()` yields `None`, subscripting it raises, `commit()`
is never reached and the uncommitted transaction is rolled back when the
connection is discarded — so an absent id leaves the state unchanged and the
call fails. -/
def reportMatch (db : DB) (winner loser : Int) : Except TError DB :=
  if hasPlayer db winner && hasPlayer db loser then
    .ok { players := db.players.map fun p => bumpLoser loser (bumpWinner winner p)
          match_history := db.match_history ++ [⟨winner, loser⟩] }
  else .error .invalidPlayer

/-- Python `reportBye(winner)` (tournament.py:140-162): increment the wins
and matches_played of the player and append a `(winner, -1)` history record; committed
immediately. -/
def reportBye (db : DB) (winner : Int) : DB :=
  { players := db.players.map (bumpWinner winner)
    match_history := db.match_history ++ [⟨winner, -1⟩] }

/-- Wins of the player with the given id (0 if absent). -/
def playerWins (db : DB) (pid : Int) : Nat :=
  match db.players.find? (·.id == pid) with
  | some p => p.wins
  | none => 0

/-- Opponents-match-wins (OMW): the sum, over every history record in which
the player took part against a real opponent, of the win count of that
opponent. -/
def omw (db : DB) (pid : Int) : Nat :=
  (db.match_history.map fun m =>
    if m.winner_id == pid && m.loser_id != -1 then playerWins db m.loser_id
    else if m.loser_id == pid then playerWins db m.winner_id
    else 0).sum

/-- Projection of a player row to a standings row. -/
def toEntry (p : Player) : Entry :=
  ⟨p.id, p.name, p.wins, p.matches_played⟩

/-- The comparison realised by `ORDER BY wins DESC, omw DESC`. -/
def standingsLe (db : DB) (a b : Entry) : Bool :=
  decide (b.wins < a.wins) ||
    (a.wins == b.wins && decide (omw db b.id ≤ omw db a.id))

/-- Modelled from the spec: the `player_standings` SQL view
(tournament.py:81 reads `SELECT * FROM player_standings`; the SQL definition
of the view is not in src/).  Per §4.1 of the spec and the query comment at
the end of tournament.py, it ranks the players by descending wins, then
descending OMW, and yields no rows while the match history is empty. -/
def player_standings (db : DB) : List Entry :=
  if db.match_history.isEmpty then []
  else (db.players.map toEntry).mergeSort (standingsLe db)

/-- The comparison realised by `ORDER BY a.wins DESC` in the fallback query. -/
def winsLe (a b : Entry) : Bool :=
  decide (b.wins ≤ a.wins)

/-- Python `playerStandings()` (tournament.py:67-98): read the `player_standings`
view; if it returned no rows (empty match history), fall back to the
`players` table ordered by wins descending. -/
def playerStandings (db : DB) : List Entry :=
  let standings := player_standings db
  if standings.length = 0 then
    (db.players.map toEntry).mergeSort winsLe
  else standings

/-- The bye-search loop of `swissPairings` (tournament.py:195-198):
`k = 1; while checkBye(standings[len-k]) and len-k >= 0: k += 1`.
For `k ≤ len` the index `len-k` is in range and the second conjunct holds,
so the loop continues iff `checkBye` holds at index `len-k`; when `k`
reaches `len+1` Python evaluates `checkBye(standings[-1])` (the wrapped
index) and then stops regardless, because `-1 >= 0` is false.  The fuel
argument counts the loop iterations still allowed before that forced stop;
it starts at `len`, making the returned `k` at most `len+1`. -/
def byeKAux (hist : List MatchRecord) (s : List Entry) (k : Nat) : Nat → Nat
  | 0 => k
  | left + 1 =>
    match s.get? (s.length - k) with
    | some e => if checkBye hist e.id then byeKAux hist s (k + 1) left else k
    | none => k

/-- The final value of `k` after the bye-search loop. -/
def byeK (hist : List MatchRecord) (s : List Entry) : Nat :=
  byeKAux hist s 1 s.length

/-- The (nonnegative) position actually used by `standings[len-k]` /
`standings.pop(len-k)` after the loop: `len-k` itself while `k ≤ len`,
and the last position when `k = len+1` (Python index `-1`). -/
def byeChoice (hist : List MatchRecord) (s : List Entry) : Nat :=
  let k := byeK hist s
  if k ≤ s.length then s.length - k else s.length - 1

/-- The rematch-avoidance loop of `swissPairings` (tournament.py:207-209):
`j = 1; while j < len(standings)-1 and rematchCheck(standings[0], standings[j]): j += 1`.
`p0` is `standings[0][0]`, which the loop re-reads unchanged.  The fuel
bounds the iterations; called with fuel `len` it never runs out before the
condition `j < len-1` fails. -/
def rematchScanAux (hist : List MatchRecord) (p0 : Int) (s : List Entry)
    (j : Nat) : Nat → Nat
  | 0 => j
  | left + 1 =>
    if j + 1 < s.length then
      match s.get? j with
      | some ej =>
        if rematchCheck hist p0 ej.id then rematchScanAux hist p0 s (j + 1) left
        else j
      | none => j
    else j

/-- The final value of `j` after the rematch-avoidance loop. -/
def rematchScan (hist : List MatchRecord) (s : List Entry) : Nat :=
  match s.get? 0 with
  | some e0 => rematchScanAux hist e0.id s 1 s.length
  | none => 1

/-- One pairing step of `swissPairings` (tournament.py:204-216): run the
rematch scan, read `standings[0]` and `standings[j]`, pop both and emit the
tuple.  `none` models the `IndexError` Python raises when `standings[0]` or
`standings[j]` is out of range. -/
def pairStep (hist : List MatchRecord) (s : List Entry) :
    Option (Pairing × List Entry) :=
  match s.get? 0 with
  | none => none
  | some e0 =>
    let j := rematchScanAux hist e0.id s 1 s.length
    match s.get? j with
    | none => none
    | some ej =>
      some ((e0.id, e0.name, ej.id, ej.name), (s.eraseIdx 0).eraseIdx (j - 1))

/-- The `while len(standings) > 0` loop of `swissPairings`
(tournament.py:185-216).  Returns the list of byes recorded during the call
(each one already committed by `reportBye`) and, when the loop completes,
the pairing list; `none` in the second component models an `IndexError`
escaping the call.  The fuel only bounds the iteration count; called with
`len+1` it cannot run out, since every iteration removes at least two
entries (or fails). -/
def swissLoopAux (hist : List MatchRecord) (s : List Entry) :
    Nat → List MatchRecord × Option (List Pairing)
  | 0 => ([], none)
  | fuel + 1 =>
    if s.length = 0 then ([], some [])
    else
      if s.length % 2 ≠ 0 then
        match s.get? (byeChoice hist s) with
        | none => ([], none)
        | some e =>
          let b : MatchRecord := ⟨e.id, -1⟩
          let hist1 := hist ++ [b]
          let s1 := s.eraseIdx (byeChoice hist s)
          match pairStep hist1 s1 with
          | none => ([b], none)
          | some (pr, s2) =>
            let rest := swissLoopAux hist1 s2 fuel
            (b :: rest.1, rest.2.map (pr :: ·))
      else
        match pairStep hist s with
        | none => ([], none)
        | some (pr, s2) =>
          let rest := swissLoopAux hist s2 fuel
          (rest.1, rest.2.map (pr :: ·))

/-- Python `swissPairings()` (tournament.py:164-219), as a function of the current
match history and the standings list it starts from
(`standings = playerStandings()`). -/
def swissPairings (hist : List MatchRecord) (s : List Entry) :
    List MatchRecord × Option (List Pairing) :=
  swissLoopAux hist s (s.length + 1)

/-- Function `swissPairings()` run against a database state. -/
def swissPairingsDB (db : DB) : List MatchRecord × Option (List Pairing) :=
  swissPairings db.match_history (playerStandings db)

/-- An operation body guarded by `db, c = connect()` (every function in
tournament.py starts this way): when the store is down, `connect` returns
`None` and unpacking it raises a `TypeError`. -/
def withConnect {α : Type} (storeUp : Bool) (body : Except TError α) :
    Except TError α :=
  match connect storeUp with
  | none => .error .typeError
  | some _ => body

/-- Function `playerStandings()` including its connection step. -/
def playerStandingsRun (storeUp : Bool) (db : DB) : Except TError (List Entry) :=
  withConnect storeUp (.ok (playerStandings db))

/-- Function `reportMatch(winner, loser)` including its connection step. -/
def reportMatchRun (storeUp : Bool) (db : DB) (winner loser : Int) :
    Except TError DB :=
  withConnect storeUp (reportMatch db winner loser)

/-- Function `deleteMatches()` including its connection step. -/
def deleteMatchesRun (storeUp : Bool) (db : DB) : Except TError DB :=
  withConnect storeUp (.ok (deleteMatches db))

/-- Function `swissPairings()` including its connection step. -/
def swissPairingsRun (storeUp : Bool) (db : DB) :
    Except TError (List MatchRecord × Option (List Pairing)) :=
  withConnect storeUp (.ok (swissPairingsDB db))

/-- The per-player counter invariant: matches_played = wins + losses. -/
def counterInv (db : DB) : Prop :=
  ∀ p ∈ db.players, p.matches_played = p.wins + p.losses

/-- The ids appearing in a pairing list, in order. -/
def pairIds : List Pairing → List Int
  | [] => []
  | (i1, _, i2, _) :: t => i1 :: i2 :: pairIds t

end Tournament


namespace Tournament

/-! ## Properties of the rematch-avoidance scan -/

/-- The scan never decreases `j`. -/
theorem rematchScanAux_le (hist : List MatchRecord) (p0 : Int) (s : List Entry) :
    ∀ fuel j, j ≤ rematchScanAux hist p0 s j fuel := by
  intro fuel
  induction fuel with
  | zero => intro j; simp [rematchScanAux]
  | succ left ih =>
    intro j
    simp only [rematchScanAux]
    split
    · cases hj : s.get? j with
      | none => simp
      | some ej =>
        simp only
        split
        · exact Nat.le_trans (Nat.le_succ j) (ih (j + 1))
        · exact Nat.le_refl j
    · exact Nat.le_refl j

/-- The scan never moves past the last index. -/
theorem rematchScanAux_lt (hist : List MatchRecord) (p0 : Int) (s : List Entry) :
    ∀ fuel j, j < s.length → rematchScanAux hist p0 s j fuel < s.length := by
  intro fuel
  induction fuel with
  | zero => intro j hj; simpa [rematchScanAux] using hj
  | succ left ih =>
    intro j hj
    simp only [rematchScanAux]
    split
    · cases hget : s.get? j with
      | none => simpa using hj
      | some ej =>
        simp only
        split
        · exact ih (j + 1) (by omega)
        · exact hj
    · exact hj

/-- Every index the scan skipped over held a rematch opponent. -/
theorem rematchScanAux_skipped (hist : List MatchRecord) (p0 : Int) (s : List Entry) :
    ∀ fuel j i, j ≤ i → i < rematchScanAux hist p0 s j fuel →
      ∀ ei, s.get? i = some ei → rematchCheck hist p0 ei.id = true := by
  intro fuel
  induction fuel with
  | zero => intro j i hji hlt; simp [rematchScanAux] at hlt; omega
  | succ left ih =>
    intro j i hji hlt ei hget
    simp only [rematchScanAux] at hlt
    split at hlt
    · cases hj : s.get? j with
      | none => rw [hj] at hlt; simp at hlt; omega
      | some ej =>
        rw [hj] at hlt
        simp only at hlt
        split at hlt
        · rcases Nat.eq_or_lt_of_le hji with heq | hlt2
          · subst heq
            rw [hj] at hget
            cases hget
            assumption
          · exact ih (j + 1) i hlt2 hlt ei hget
        · omega
    · omega

/-- When the scan had enough fuel and stops strictly before the last index,
the pair it stops on is not a rematch. -/
theorem rematchScanAux_stop (hist : List MatchRecord) (p0 : Int) (s : List Entry) :
    ∀ fuel j, s.length ≤ fuel + j →
      rematchScanAux hist p0 s j fuel + 1 < s.length →
      ∀ ej, s.get? (rematchScanAux hist p0 s j fuel) = some ej →
        rematchCheck hist p0 ej.id = false := by
  intro fuel
  induction fuel with
  | zero =>
    intro j hfuel hlt
    simp only [rematchScanAux] at hlt
    omega
  | succ left ih =>
    intro j hfuel hlt ej hget
    simp only [rematchScanAux] at hlt hget
    by_cases hcond : j + 1 < s.length
    · rw [if_pos hcond] at hlt hget
      cases hj : s.get? j with
      | none =>
        exfalso
        have hjlen : j < s.length := by omega
        rw [List.get?_eq_get hjlen] at hj
        cases hj
      | some e =>
        rw [hj] at hlt hget
        simp only at hlt hget
        by_cases hre : rematchCheck hist p0 e.id = true
        · rw [if_pos hre] at hlt hget
          exact ih (j + 1) (by omega) hlt ej hget
        · rw [if_neg hre] at hlt hget
          rw [hj] at hget
          cases hget
          simpa using hre
    · rw [if_neg hcond] at hlt
      omega

/-! ## Properties of one pairing step -/

/-- Decomposition of a successful `pairStep`. -/
theorem pairStep_some_elim (hist : List MatchRecord) (s : List Entry)
    (pr : Pairing) (s2 : List Entry) (h : pairStep hist s = some (pr, s2)) :
    ∃ e0 t ej, s = e0 :: t ∧
      (let j := rematchScanAux hist e0.id s 1 s.length
       s.get? j = some ej ∧ 1 ≤ j ∧ j < s.length ∧
       pr = (e0.id, e0.name, ej.id, ej.name) ∧ s2 = t.eraseIdx (j - 1)) := by
  cases s with
  | nil => simp [pairStep] at h
  | cons e0 t =>
    refine ⟨e0, t, ?_⟩
    simp only [pairStep, List.get?] at h
    cases hj : (e0 :: t).get? (rematchScanAux hist e0.id (e0 :: t) 1 (e0 :: t).length) with
    | none => rw [hj] at h; cases h
    | some ej =>
      rw [hj] at h
      simp only [Option.some.injEq, Prod.mk.injEq] at h
      refine ⟨ej, rfl, hj, rematchScanAux_le hist e0.id _ _ 1, ?_, h.1.symm, ?_⟩
      · by_contra hge
        rw [List.get?_eq_none.mpr (by omega)] at hj
        cases hj
      · rw [← h.2]
        simp [List.eraseIdx]

/-- A list of two or more entries always yields a successful `pairStep`. -/
theorem pairStep_some_intro (hist : List MatchRecord) (s : List Entry)
    (h2 : 2 ≤ s.length) : ∃ pr s2, pairStep hist s = some (pr, s2) := by
  cases s with
  | nil => simp at h2
  | cons e0 t =>
    have hjlt : rematchScanAux hist e0.id (e0 :: t) 1 (e0 :: t).length < (e0 :: t).length :=
      rematchScanAux_lt hist e0.id (e0 :: t) _ 1 (by simpa using h2)
    simp only [pairStep, List.get?]
    rw [List.get?_eq_get hjlt]
    exact ⟨_, _, rfl⟩

/-- A successful `pairStep` consumes exactly two entries. -/
theorem pairStep_some_length (hist : List MatchRecord) (s : List Entry)
    (pr : Pairing) (s2 : List Entry) (h : pairStep hist s = some (pr, s2)) :
    s2.length + 2 = s.length := by
  obtain ⟨e0, t, ej, hs, hget, hj1, hjlt, hpr, hs2⟩ := pairStep_some_elim hist s pr s2 h
  subst hs
  subst hs2
  have hlen : (e0 :: t).length = t.length + 1 := rfl
  have hlt : rematchScanAux hist e0.id (e0 :: t) 1 (e0 :: t).length - 1 < t.length := by
    omega
  rw [List.length_eraseIdx, if_pos hlt]
  omega

/-- Claim C2: if the pair selected by a pairing step (the selection step run
by `swissPairings` for every output pair, against the history current at
that moment) is a rematch,
then every candidate opponent available at that moment (every index from 1
to the end of the working standings) was a rematch — equivalently, the step
never selects a rematch while a non-rematch candidate exists. -/
theorem pairStep_rematch_only_if_forced (hist : List MatchRecord) (s : List Entry)
    (p1 p2 : Int) (n1 n2 : String) (s2 : List Entry)
    (h : pairStep hist s = some ((p1, n1, p2, n2), s2))
    (hre : rematchCheck hist p1 p2 = true) :
    ∀ i, 1 ≤ i → ∀ ei, s.get? i = some ei → rematchCheck hist p1 ei.id = true := by
  obtain ⟨e0, t, ej, hs, hget, hj1, hjlt, hpr, hs2⟩ := pairStep_some_elim hist s _ _ h
  obtain ⟨hp1, hn1, hp2, hn2⟩ : p1 = e0.id ∧ n1 = e0.name ∧ p2 = ej.id ∧ n2 = ej.name := by
    simpa [Prod.ext_iff] using hpr
  subst hp1
  subst hp2
  intro i hi1 ei hgeti
  have hilen : i < s.length := by
    by_contra hge
    rw [List.get?_eq_none.mpr (by omega)] at hgeti
    cases hgeti
  by_cases hstop : rematchScanAux hist e0.id s 1 s.length + 1 < s.length
  · exact absurd (rematchScanAux_stop hist e0.id s s.length 1 (by omega) hstop ej hget)
      (by simp [hre])
  · rcases Nat.lt_or_ge i (rematchScanAux hist e0.id s 1 s.length) with hlt | hge
    · exact rematchScanAux_skipped hist e0.id s s.length 1 i hi1 hlt ei hgeti
    · have : i = rematchScanAux hist e0.id s 1 s.length := by omega
      rw [this, hget] at hgeti
      cases hgeti
      exact hre

/-! ## Properties of the bye-search scan -/

/-- The bye scan never decreases `k`. -/
theorem byeKAux_ge (hist : List MatchRecord) (s : List Entry) :
    ∀ fuel k, k ≤ byeKAux hist s k fuel := by
  intro fuel
  induction fuel with
  | zero => intro k; simp [byeKAux]
  | succ left ih =>
    intro k
    simp only [byeKAux]
    cases s.get? (s.length - k) with
    | none => simp
    | some e =>
      simp only
      split
      · exact Nat.le_trans (Nat.le_succ k) (ih (k + 1))
      · exact Nat.le_refl k

/-- The bye scan advances `k` at most `fuel` times. -/
theorem byeKAux_le (hist : List MatchRecord) (s : List Entry) :
    ∀ fuel k, byeKAux hist s k fuel ≤ k + fuel := by
  intro fuel
  induction fuel with
  | zero => intro k; simp [byeKAux]
  | succ left ih =>
    intro k
    simp only [byeKAux]
    cases s.get? (s.length - k) with
    | none => simp
    | some e =>
      simp only
      split
      · exact Nat.le_trans (ih (k + 1)) (by omega)
      · omega

/-- Every counter value the bye scan moved past pointed at a player who had
already had a bye. -/
theorem byeKAux_skipped (hist : List MatchRecord) (s : List Entry) :
    ∀ fuel k m, k ≤ m → m < byeKAux hist s k fuel →
      ∀ e, s.get? (s.length - m) = some e → checkBye hist e.id = true := by
  intro fuel
  induction fuel with
  | zero => intro k m hkm hlt; simp [byeKAux] at hlt; omega
  | succ left ih =>
    intro k m hkm hlt e hget
    simp only [byeKAux] at hlt
    cases hk : s.get? (s.length - k) with
    | none => rw [hk] at hlt; simp at hlt; omega
    | some e2 =>
      rw [hk] at hlt
      simp only at hlt
      split at hlt
      · rcases Nat.eq_or_lt_of_le hkm with heq | hlt2
        · subst heq
          rw [hk] at hget
          cases hget
          assumption
        · exact ih (k + 1) m hlt2 hlt e hget
      · omega

/-- If the bye scan stops before exhausting its fuel (on a nonempty list,
with a positive counter), the player it stops on has not had a bye. -/
theorem byeKAux_stopped (hist : List MatchRecord) (s : List Entry) (h0 : 0 < s.length) :
    ∀ fuel k, 1 ≤ k → byeKAux hist s k fuel < k + fuel →
      ∀ e, s.get? (s.length - byeKAux hist s k fuel) = some e →
        checkBye hist e.id = false := by
  intro fuel
  induction fuel with
  | zero => intro k hk1 hlt; simp [byeKAux] at hlt
  | succ left ih =>
    intro k hk1 hlt e hget
    have hidx : s.length - k < s.length := by omega
    simp only [byeKAux] at hlt hget
    cases hk : s.get? (s.length - k) with
    | none =>
      exfalso
      rw [List.get?_eq_get hidx] at hk
      cases hk
    | some e2 =>
      rw [hk] at hlt hget
      simp only at hlt hget
      by_cases hb : checkBye hist e2.id = true
      · rw [if_pos hb] at hlt hget
        exact ih (k + 1) (by omega) (by omega) e hget
      · rw [if_neg hb] at hlt hget
        rw [hk] at hget
        cases hget
        simpa using hb

/-- If every player in the standings has already had a bye, the bye scan
runs its fuel out (in the source: until the negative index `-1` makes the
loop guard fail). -/
theorem byeKAux_all (hist : List MatchRecord) (s : List Entry) (h0 : 0 < s.length)
    (hall : ∀ e ∈ s, checkBye hist e.id = true) :
    ∀ fuel k, 1 ≤ k → byeKAux hist s k fuel = k + fuel := by
  intro fuel
  induction fuel with
  | zero => intro k hk1; simp [byeKAux]
  | succ left ih =>
    intro k hk1
    have hidx : s.length - k < s.length := by omega
    simp only [byeKAux]
    cases hk : s.get? (s.length - k) with
    | none =>
      exfalso
      rw [List.get?_eq_get hidx] at hk
      cases hk
    | some e2 =>
      simp only
      have he2 : e2 ∈ s := by
        have := List.get?_eq_get hidx
        rw [this] at hk
        cases hk
        exact List.get_mem s _ _
      rw [if_pos (hall e2 he2)]
      rw [ih (k + 1) (by omega)]
      omega

/-- The position selected for the bye is always in range. -/
theorem byeChoice_lt (hist : List MatchRecord) (s : List Entry) (h0 : 0 < s.length) :
    byeChoice hist s < s.length := by
  have hge := byeKAux_ge hist s s.length 1
  simp only [byeChoice, byeK]
  split
  · omega
  · omega

/-- Helper for the bye policy: when some player has not yet had a bye, the scan
selects the highest in-range position (the lowest-ranked player) whose
player has not had a bye, and every player below that position has had
one. -/
theorem byeChoice_no_bye (hist : List MatchRecord) (s : List Entry)
    (hex : ∃ i e, s.get? i = some e ∧ checkBye hist e.id = false) :
    ∃ e, s.get? (byeChoice hist s) = some e ∧ checkBye hist e.id = false ∧
      ∀ i, byeChoice hist s < i → ∀ e2, s.get? i = some e2 →
        checkBye hist e2.id = true := by
  obtain ⟨i0, e0, hget0, hb0⟩ := hex
  have h0 : 0 < s.length := by
    rcases Nat.eq_zero_or_pos s.length with hz | hp
    · rw [List.get?_eq_none.mpr (by omega)] at hget0
      cases hget0
    · exact hp
  have hi0 : i0 < s.length := by
    by_contra hge
    rw [List.get?_eq_none.mpr (by omega)] at hget0
    cases hget0
  have hkge := byeKAux_ge hist s s.length 1
  have hkle := byeKAux_le hist s s.length 1
  have hklen : byeK hist s ≤ s.length := by
    by_contra hgt
    have hK : byeK hist s = 1 + s.length := by unfold byeK at hgt ⊢; omega
    have := byeKAux_skipped hist s s.length 1 (s.length - i0) (by omega)
      (by unfold byeK at hK; omega) e0 (by rwa [Nat.sub_sub_self (by omega)])
    rw [hb0] at this
    cases this
  have hchoice : byeChoice hist s = s.length - byeK hist s := by
    unfold byeChoice
    rw [if_pos hklen]
  have hstop := byeKAux_stopped hist s h0 s.length 1 (by omega)
    (by unfold byeK at hklen; omega)
  have hidx : s.length - byeK hist s < s.length := by
    have := byeKAux_ge hist s s.length 1
    unfold byeK
    omega
  obtain ⟨e, hgete⟩ : ∃ e, s.get? (byeChoice hist s) = some e := by
    rw [hchoice]
    exact ⟨_, List.get?_eq_get hidx⟩
  refine ⟨e, hgete, ?_, ?_⟩
  · apply hstop
    rw [hchoice] at hgete
    exact hgete
  · intro i hi e2 hget2
    have hilen : i < s.length := by
      by_contra hge
      rw [List.get?_eq_none.mpr (by omega)] at hget2
      cases hget2
    rw [hchoice] at hi
    have hm : 1 ≤ s.length - i ∧ s.length - i < byeK hist s := by omega
    exact byeKAux_skipped hist s s.length 1 (s.length - i) hm.1
      (by unfold byeK at hm; exact hm.2) e2
      (by rwa [Nat.sub_sub_self (by omega)])

/-- Helper for the bye policy: when every player has already had a bye, the scan
exits with `k = len + 1` and the wrapped index `-1` selects the last
position. -/
theorem byeChoice_all_byes (hist : List MatchRecord) (s : List Entry)
    (h0 : 0 < s.length) (hall : ∀ e ∈ s, checkBye hist e.id = true) :
    byeK hist s = s.length + 1 ∧ byeChoice hist s = s.length - 1 := by
  have hK : byeK hist s = s.length + 1 := by
    unfold byeK
    rw [byeKAux_all hist s h0 hall s.length 1 (by omega)]
    omega
  refine ⟨hK, ?_⟩
  unfold byeChoice
  rw [show byeK hist s = s.length + 1 from hK, if_neg (by omega)]

/-! ## Properties of the main pairing loop -/

/-- On an even-length working list (with fuel to spare) the loop always
completes, records no bye, and emits one pair per two entries. -/
theorem swissLoopAux_even (hist : List MatchRecord) :
    ∀ fuel s, s.length % 2 = 0 → s.length < fuel →
      ∃ ret, swissLoopAux hist s fuel = ([], some ret) ∧
        ret.length + ret.length = s.length := by
  intro fuel
  induction fuel generalizing hist with
  | zero => intro s heven hlt; omega
  | succ f ih =>
    intro s heven hlt
    by_cases hz : s.length = 0
    · refine ⟨[], ?_, by simp [hz]⟩
      simp [swissLoopAux, hz]
    · obtain ⟨pr, s2, hps⟩ := pairStep_some_intro hist s (by omega)
      have hlen := pairStep_some_length hist s pr s2 hps
      obtain ⟨ret2, hrec, hlen2⟩ := ih hist s2 (by omega) (by omega)
      refine ⟨pr :: ret2, ?_, by simp; omega⟩
      simp only [swissLoopAux]
      rw [if_neg hz, if_neg (by omega : ¬s.length % 2 ≠ 0), hps]
      simp only [hrec]
      rfl

/-- On an odd-length working list the loop records exactly the one bye chosen
by the bye scan (whether or not the pairing phase afterwards succeeds). -/
theorem swissLoopAux_odd_byes (hist : List MatchRecord) (s : List Entry)
    (fuel : Nat) (hodd : s.length % 2 = 1) (hlt : s.length < fuel)
    (e : Entry) (hget : s.get? (byeChoice hist s) = some e) :
    (swissLoopAux hist s fuel).1 = [MatchRecord.mk e.id (-1)] := by
  obtain ⟨f, rfl⟩ : ∃ f, fuel = f + 1 := ⟨fuel - 1, by omega⟩
  have hchoice := byeChoice_lt hist s (by omega)
  have hs1len : (s.eraseIdx (byeChoice hist s)).length = s.length - 1 := by
    rw [List.length_eraseIdx, if_pos hchoice]
  simp only [swissLoopAux]
  rw [if_neg (by omega : ¬s.length = 0), if_pos (by omega : s.length % 2 ≠ 0), hget]
  simp only
  cases hps : pairStep (hist ++ [MatchRecord.mk e.id (-1)]) (s.eraseIdx (byeChoice hist s)) with
  | none => rfl
  | some prs2 =>
    obtain ⟨pr, s2⟩ := prs2
    have hlen := pairStep_some_length _ _ pr s2 hps
    obtain ⟨ret2, hrec, hlen2⟩ :=
      swissLoopAux_even (hist ++ [MatchRecord.mk e.id (-1)]) f s2 (by omega) (by omega)
    simp [hrec]

/-- On an odd-length working list of three or more entries (with fuel to
spare) the loop completes: one bye, then pairs covering the rest. -/
theorem swissLoopAux_odd (hist : List MatchRecord) (s : List Entry)
    (fuel : Nat) (hodd : s.length % 2 = 1) (h3 : 3 ≤ s.length)
    (hlt : s.length < fuel) (e : Entry)
    (hget : s.get? (byeChoice hist s) = some e) :
    ∃ ret, swissLoopAux hist s fuel = ([MatchRecord.mk e.id (-1)], some ret) ∧
      ret.length + ret.length + 1 = s.length := by
  obtain ⟨f, rfl⟩ : ∃ f, fuel = f + 1 := ⟨fuel - 1, by omega⟩
  have hchoice := byeChoice_lt hist s (by omega)
  have hs1len : (s.eraseIdx (byeChoice hist s)).length = s.length - 1 := by
    rw [List.length_eraseIdx, if_pos hchoice]
  obtain ⟨pr, s2, hps⟩ :=
    pairStep_some_intro (hist ++ [MatchRecord.mk e.id (-1)])
      (s.eraseIdx (byeChoice hist s)) (by omega)
  have hlen := pairStep_some_length _ _ pr s2 hps
  obtain ⟨ret2, hrec, hlen2⟩ :=
    swissLoopAux_even (hist ++ [MatchRecord.mk e.id (-1)]) f s2 (by omega) (by omega)
  refine ⟨pr :: ret2, ?_, by simp; omega⟩
  simp only [swissLoopAux]
  rw [if_neg (by omega : ¬s.length = 0), if_pos (by omega : s.length % 2 ≠ 0), hget]
  simp only [hps, hrec]
  rfl

/-! ## Uniqueness of the players appearing in the output pairs -/

/-- Mapping a function commutes with removing an index. -/
theorem map_eraseIdx {α β : Type} (f : α → β) :
    ∀ (l : List α) (n : Nat), (l.eraseIdx n).map f = (l.map f).eraseIdx n := by
  intro l
  induction l with
  | nil => intro n; simp
  | cons a t ih =>
    intro n
    cases n with
    | zero => simp
    | succ m => simp [List.eraseIdx_cons_succ, ih m]

/-- An element of a duplicate-free list does not survive the removal of its
own position. -/
theorem nodup_not_mem_eraseIdx {α : Type} (L : List α) (n : Nat) (x : α)
    (hnd : L.Nodup) (hget : L.get? n = some x) : x ∉ L.eraseIdx n := by
  intro hmem
  obtain ⟨i, hne, hgeti⟩ := List.mem_eraseIdx_iff_get?.mp hmem
  have hi : i < L.length := by
    by_contra hge
    rw [List.get?_eq_none.mpr (by omega)] at hgeti
    cases hgeti
  exact hne (List.get?_inj hi hnd (by rw [hgeti, hget]))

/-- The two players selected by a pairing step are distinct, are drawn from
the working list, and are absent from the remaining working list. -/
theorem pairStep_ids (hist : List MatchRecord) (s : List Entry)
    (p1 p2 : Int) (n1 n2 : String) (s2 : List Entry)
    (h : pairStep hist s = some ((p1, n1, p2, n2), s2))
    (hnd : (s.map Entry.id).Nodup) :
    (s2.map Entry.id).Nodup ∧ p1 ∉ s2.map Entry.id ∧ p2 ∉ s2.map Entry.id ∧
      p1 ≠ p2 ∧ (∀ x ∈ s2.map Entry.id, x ∈ s.map Entry.id) ∧
      p1 ∈ s.map Entry.id ∧ p2 ∈ s.map Entry.id := by
  obtain ⟨e0, t, ej, hs, hget, hj1, hjlt, hpr, hs2⟩ := pairStep_some_elim hist s _ _ h
  obtain ⟨hp1, hn1, hp2, hn2⟩ : p1 = e0.id ∧ n1 = e0.name ∧ p2 = ej.id ∧ n2 = ej.name := by
    simpa [Prod.ext_iff] using hpr
  subst hp1
  subst hp2
  subst hs
  subst hs2
  obtain ⟨m, hm⟩ : ∃ m, rematchScanAux hist e0.id (e0 :: t) 1 (e0 :: t).length = m + 1 :=
    ⟨rematchScanAux hist e0.id (e0 :: t) 1 (e0 :: t).length - 1, by omega⟩
  rw [hm] at hget
  rw [hm]
  have hgett : t.get? m = some ej := by simpa using hget
  have hndt : (t.map Entry.id).Nodup ∧ e0.id ∉ t.map Entry.id := by
    simp only [List.map_cons, List.nodup_cons] at hnd
    exact ⟨hnd.2, hnd.1⟩
  have hids2 : (t.eraseIdx (m + 1 - 1)).map Entry.id = (t.map Entry.id).eraseIdx m := by
    rw [map_eraseIdx]
    rfl
  have hsub : (t.map Entry.id).eraseIdx m ⊆ t.map Entry.id :=
    (List.eraseIdx_sublist _ m).subset
  have hgetid : (t.map Entry.id).get? m = some ej.id := by
    rw [List.get?_map, hgett]
    rfl
  have hejmem : ej.id ∈ t.map Entry.id := List.get?_mem hgetid
  refine ⟨?_, ?_, ?_, ?_, ?_, ?_, ?_⟩
  · rw [hids2]
    exact (List.eraseIdx_sublist _ m).nodup hndt.1
  · rw [hids2]
    intro hmem
    exact hndt.2 (hsub hmem)
  · rw [hids2]
    exact nodup_not_mem_eraseIdx _ m ej.id hndt.1 hgetid
  · intro heq
    rw [heq] at hndt
    exact hndt.2 hejmem
  · intro x hx
    rw [hids2] at hx
    simp only [List.map_cons, List.mem_cons]
    exact Or.inr (hsub hx)
  · simp
  · simp only [List.map_cons, List.mem_cons]
    exact Or.inr hejmem

/-- Helper: `pairIds` of a cons. -/
theorem pairIds_cons (pr : Pairing) (t : List Pairing) :
    pairIds (pr :: t) = pr.1 :: pr.2.2.1 :: pairIds t := by
  rcases pr with ⟨i1, n1, i2, n2⟩
  rfl

/-- Whenever the pairing loop completes over standings with duplicate-free
player ids, the ids occurring in the output pairs are duplicate-free and
drawn from the standings. -/
theorem swissLoopAux_nodup (hist : List MatchRecord) :
    ∀ fuel s bs ret, swissLoopAux hist s fuel = (bs, some ret) →
      (s.map Entry.id).Nodup →
      (pairIds ret).Nodup ∧ ∀ x ∈ pairIds ret, x ∈ s.map Entry.id := by
  intro fuel
  induction fuel generalizing hist with
  | zero =>
    intro s bs ret h
    simp [swissLoopAux] at h
  | succ f ih =>
    intro s bs ret h hnd
    simp only [swissLoopAux] at h
    by_cases hz : s.length = 0
    · rw [if_pos hz] at h
      obtain ⟨hbs, hret⟩ : (([] : List MatchRecord) = bs) ∧ (some [] = some ret) := by
        simpa [Prod.ext_iff] using h
      obtain rfl : ([] : List Pairing) = ret := by simpa using hret
      simp [pairIds]
    · rw [if_neg hz] at h
      by_cases hodd : s.length % 2 ≠ 0
      · rw [if_pos hodd] at h
        cases hgete : s.get? (byeChoice hist s) with
        | none => rw [hgete] at h; simp [Prod.ext_iff] at h
        | some e =>
          rw [hgete] at h
          simp only at h
          cases hps : pairStep (hist ++ [MatchRecord.mk e.id (-1)])
              (s.eraseIdx (byeChoice hist s)) with
          | none => rw [hps] at h; simp [Prod.ext_iff] at h
          | some prs2 =>
            rw [hps] at h
            obtain ⟨pr, s2⟩ := prs2
            simp only at h
            cases hrec : (swissLoopAux (hist ++ [MatchRecord.mk e.id (-1)]) s2 f).2 with
            | none => rw [hrec] at h; simp [Prod.ext_iff] at h
            | some ret2 =>
              rw [hrec] at h
              obtain ⟨hbs, hret⟩ : _ ∧ some (pr :: ret2) = some ret := by
                simpa [Prod.ext_iff] using h
              obtain rfl : pr :: ret2 = ret := by simpa using hret
              have hnd1 : ((s.eraseIdx (byeChoice hist s)).map Entry.id).Nodup := by
                rw [map_eraseIdx]
                exact ((List.eraseIdx_sublist _ _).nodup hnd)
              have hsub1 : ∀ x ∈ (s.eraseIdx (byeChoice hist s)).map Entry.id,
                  x ∈ s.map Entry.id := by
                intro x hx
                rw [map_eraseIdx] at hx
                exact (List.eraseIdx_sublist _ _).subset hx
              rcases pr with ⟨q1, m1, q2, m2⟩
              obtain ⟨hnd2, hq1, hq2, hqq, hsub2, hq1mem, hq2mem⟩ :=
                pairStep_ids _ _ q1 q2 m1 m2 s2 hps hnd1
              obtain ⟨hndr, hsubr⟩ := ih (hist ++ [MatchRecord.mk e.id (-1)]) s2
                (swissLoopAux (hist ++ [MatchRecord.mk e.id (-1)]) s2 f).1 ret2
                (by rw [← hrec]) hnd2
              constructor
              · rw [pairIds_cons]
                simp only [List.nodup_cons, List.mem_cons]
                refine ⟨?_, ?_, hndr⟩
                · rintro (rfl | hq1r)
                  · exact hqq rfl
                  · exact hq1 (hsubr _ hq1r)
                · intro hq2r
                  exact hq2 (hsubr _ hq2r)
              · intro x hx
                rw [pairIds_cons] at hx
                simp only [List.mem_cons] at hx
                rcases hx with rfl | rfl | hxr
                · exact hsub1 _ hq1mem
                · exact hsub1 _ hq2mem
                · exact hsub1 _ (hsub2 _ (hsubr _ hxr))
      · rw [if_neg hodd] at h
        cases hps : pairStep hist s with
        | none => rw [hps] at h; simp [Prod.ext_iff] at h
        | some prs2 =>
          rw [hps] at h
          obtain ⟨pr, s2⟩ := prs2
          simp only at h
          cases hrec : (swissLoopAux hist s2 f).2 with
          | none => rw [hrec] at h; simp [Prod.ext_iff] at h
          | some ret2 =>
            rw [hrec] at h
            obtain ⟨hbs, hret⟩ : _ ∧ some (pr :: ret2) = some ret := by
              simpa [Prod.ext_iff] using h
            obtain rfl : pr :: ret2 = ret := by simpa using hret
            rcases pr with ⟨q1, m1, q2, m2⟩
            obtain ⟨hnd2, hq1, hq2, hqq, hsub2, hq1mem, hq2mem⟩ :=
              pairStep_ids _ _ q1 q2 m1 m2 s2 hps hnd
            obtain ⟨hndr, hsubr⟩ := ih hist s2
              (swissLoopAux hist s2 f).1 ret2 (by rw [← hrec]) hnd2
            constructor
            · rw [pairIds_cons]
              simp only [List.nodup_cons, List.mem_cons]
              refine ⟨?_, ?_, hndr⟩
              · rintro (rfl | hq1r)
                · exact hqq rfl
                · exact hq1 (hsubr _ hq1r)
              · intro hq2r
                exact hq2 (hsubr _ hq2r)
            · intro x hx
              rw [pairIds_cons] at hx
              simp only [List.mem_cons] at hx
              rcases hx with rfl | rfl | hxr
              · exact hq1mem
              · exact hq2mem
              · exact hsub2 _ (hsubr _ hxr)

/-! ## Sortedness of the standings -/

/-- Transitivity of the standings comparison. -/
theorem standingsLe_trans (db : DB) (a b c : Entry)
    (hab : standingsLe db a b = true) (hbc : standingsLe db b c = true) :
    standingsLe db a c = true := by
  simp only [standingsLe, Bool.or_eq_true, Bool.and_eq_true, decide_eq_true_eq,
    beq_iff_eq] at hab hbc ⊢
  rcases hab with h1 | ⟨h1, h2⟩ <;> rcases hbc with h3 | ⟨h3, h4⟩
  · left; omega
  · left; omega
  · left; omega
  · right; exact ⟨by omega, Nat.le_trans h4 h2⟩

/-- Totality of the standings comparison. -/
theorem standingsLe_total (db : DB) (a b : Entry) :
    (standingsLe db a b || standingsLe db b a) = true := by
  simp only [standingsLe, Bool.or_eq_true, Bool.and_eq_true, decide_eq_true_eq,
    beq_iff_eq]
  rcases Nat.lt_trichotomy a.wins b.wins with h | h | h
  · right; left; exact h
  · rcases Nat.le_total (omw db b.id) (omw db a.id) with h2 | h2
    · left; right; exact ⟨h, h2⟩
    · right; right; exact ⟨h.symm, h2⟩
  · left; left; exact h

/-- Transitivity of the fallback comparison. -/
theorem winsLe_trans (a b c : Entry)
    (hab : winsLe a b = true) (hbc : winsLe b c = true) : winsLe a c = true := by
  simp only [winsLe, decide_eq_true_eq] at hab hbc ⊢
  omega

/-- Totality of the fallback comparison. -/
theorem winsLe_total (a b : Entry) : (winsLe a b || winsLe b a) = true := by
  simp only [winsLe, Bool.or_eq_true, decide_eq_true_eq]
  omega

/-- With an empty match history every OMW value is zero. -/
theorem omw_empty (db : DB) (hnil : db.match_history = []) (pid : Int) :
    omw db pid = 0 := by
  simp [omw, hnil]

/-! ## The counter invariant and match recording -/

/-- One player row keeps the counter invariant through the two updates of
`reportMatch`. -/
theorem bump_keeps_inv (w l : Int) (p : Player)
    (h : p.matches_played = p.wins + p.losses) :
    (bumpLoser l (bumpWinner w p)).matches_played =
      (bumpLoser l (bumpWinner w p)).wins + (bumpLoser l (bumpWinner w p)).losses := by
  by_cases hw : p.id == w <;> by_cases hl : p.id == l <;>
    simp [bumpWinner, bumpLoser, hw, hl] <;> omega

/-! ## Concrete fixtures used by the witnesses -/

/-- A standings entry used in concrete instances. -/
def ent (i : Int) (nm : String) : Entry := ⟨i, nm, 0, 0⟩

/-- Four-player standings. -/
def s4 : List Entry := [ent 1 "A", ent 2 "B", ent 3 "C", ent 4 "D"]

/-- Three-player standings. -/
def s3 : List Entry := [ent 1 "A", ent 2 "B", ent 3 "C"]

/-- A two-player database in which the players already have a recorded
match against each other. -/
def db2 : DB :=
  ⟨[⟨1, "A", 1, 0, 1⟩, ⟨2, "B", 0, 1, 1⟩], [⟨1, 2⟩]⟩

/-! ## The claims -/

/-- Claim C1 (corrected): over an even-length standings list `swissPairings`
returns exactly `N/2` pairs and records no bye; over an odd-length list of at
least three it records exactly one bye (for the scanned choice) and returns
`(N-1)/2` pairs.  (As originally stated the claim also covered odd `N = 1`,
where the code instead raises an `IndexError` after recording the bye — see
the counterexample.) -/
theorem swissPairings_counts (hist : List MatchRecord) (s : List Entry) :
    (s.length % 2 = 0 →
      ∃ ret, swissPairings hist s = ([], some ret) ∧ ret.length = s.length / 2) ∧
    (s.length % 2 = 1 → 3 ≤ s.length →
      ∃ e ret, s.get? (byeChoice hist s) = some e ∧
        swissPairings hist s = ([MatchRecord.mk e.id (-1)], some ret) ∧
        ret.length = (s.length - 1) / 2) := by
  constructor
  · intro he
    obtain ⟨ret, h1, h2⟩ := swissLoopAux_even hist (s.length + 1) s he (by omega)
    exact ⟨ret, h1, by omega⟩
  · intro ho h3
    have hch := byeChoice_lt hist s (by omega)
    obtain ⟨e, hget⟩ : ∃ e, s.get? (byeChoice hist s) = some e :=
      ⟨_, List.get?_eq_get hch⟩
    obtain ⟨ret, h1, h2⟩ := swissLoopAux_odd hist s (s.length + 1) ho h3 (by omega) e hget
    exact ⟨e, ret, hget, h1, by omega⟩

/-- Claim C1, counterexample to the original wording: on the odd-length
standings list of one entry, `swissPairings` does not return a list at all —
the call raises (modelled by `none`) after recording the bye, so "the
returned list contains exactly (N-1)/2 pairs" fails for N = 1. -/
theorem swissPairings_one_entry_returns_nothing :
    (swissPairings [] [ent 7 "Last"]).2 = none := rfl

/-- Witness for the corrected claim C1 at concrete standings of length four
and three. -/
theorem swissPairings_counts_witness :
    (∃ ret, swissPairings [] s4 = ([], some ret) ∧ ret.length = s4.length / 2) ∧
    (∃ e ret, s3.get? (byeChoice [] s3) = some e ∧
      swissPairings [] s3 = ([MatchRecord.mk e.id (-1)], some ret) ∧
      ret.length = (s3.length - 1) / 2) :=
  ⟨(swissPairings_counts [] s4).1 (by decide),
   (swissPairings_counts [] s3).2 (by decide) (by decide)⟩

/-- Claim C4 (code bug): with no players `swissPairings` returns an empty
pairing list, as claimed; but with exactly one player the code records the
bye and then raises an `IndexError` (reading `standings[0]` from the
emptied working list) instead of returning an empty list. -/
theorem swissPairings_zero_and_one :
    swissPairings [] ([] : List Entry) = ([], some []) ∧
    swissPairings [] [ent 9 "Only"] = ([MatchRecord.mk 9 (-1)], none) :=
  ⟨rfl, rfl⟩

/-- Claim C3: on an odd-length standings list containing a player without a
prior bye, the bye goes to the highest-position (lowest-ranked) such player:
the chosen player has no prior bye, every player ranked below the chosen
position has one, and exactly that one bye record is produced by the call. -/
theorem swissPairings_bye_lowest_eligible (hist : List MatchRecord)
    (s : List Entry) (hodd : s.length % 2 = 1)
    (hex : ∃ i e, s.get? i = some e ∧ checkBye hist e.id = false) :
    ∃ e, s.get? (byeChoice hist s) = some e ∧ checkBye hist e.id = false ∧
      (∀ i, byeChoice hist s < i → ∀ e2, s.get? i = some e2 →
        checkBye hist e2.id = true) ∧
      (swissPairings hist s).1 = [MatchRecord.mk e.id (-1)] := by
  obtain ⟨e, hget, hb, hmax⟩ := byeChoice_no_bye hist s hex
  exact ⟨e, hget, hb, hmax,
    swissLoopAux_odd_byes hist s (s.length + 1) hodd (by omega) e hget⟩

/-- Witness for claim C3: three players, the last of whom already had a bye;
the bye goes to the second player. -/
theorem swissPairings_bye_lowest_eligible_witness :
    ∃ e, s3.get? (byeChoice [⟨3, -1⟩] s3) = some e ∧
      checkBye [⟨3, -1⟩] e.id = false ∧
      (∀ i, byeChoice [⟨3, -1⟩] s3 < i → ∀ e2, s3.get? i = some e2 →
        checkBye [⟨3, -1⟩] e2.id = true) ∧
      (swissPairings [⟨3, -1⟩] s3).1 = [MatchRecord.mk e.id (-1)] :=
  swissPairings_bye_lowest_eligible [⟨3, -1⟩] s3 (by decide)
    ⟨0, ent 1 "A", by decide, by decide⟩

/-- Claim C10: on an odd-length standings list in which every player already
had a bye, the bye scan terminates with `k = len + 1` (the Python loop exits
only when the wrapped index `-1` makes `len - k >= 0` fail), the wrapped
index selects the last (worst-ranked) position, and that player receives a
second bye. -/
theorem swissPairings_all_byes_last_player (hist : List MatchRecord)
    (s : List Entry) (h0 : 0 < s.length) (hodd : s.length % 2 = 1)
    (hall : ∀ e ∈ s, checkBye hist e.id = true) :
    byeK hist s = s.length + 1 ∧ byeChoice hist s = s.length - 1 ∧
      ∃ e, s.get? (s.length - 1) = some e ∧
        (swissPairings hist s).1 = [MatchRecord.mk e.id (-1)] := by
  obtain ⟨hK, hC⟩ := byeChoice_all_byes hist s h0 hall
  have hidx : s.length - 1 < s.length := by omega
  obtain ⟨e, hget⟩ : ∃ e, s.get? (s.length - 1) = some e :=
    ⟨_, List.get?_eq_get hidx⟩
  refine ⟨hK, hC, e, hget, ?_⟩
  exact swissLoopAux_odd_byes hist s (s.length + 1) hodd (by omega) e
    (by rw [hC]; exact hget)

/-- Witness for claim C10: three players who all already had byes; the last
player gets the second bye. -/
theorem swissPairings_all_byes_last_player_witness :
    byeK [⟨1, -1⟩, ⟨2, -1⟩, ⟨3, -1⟩] s3 = s3.length + 1 ∧
    byeChoice [⟨1, -1⟩, ⟨2, -1⟩, ⟨3, -1⟩] s3 = s3.length - 1 ∧
      ∃ e, s3.get? (s3.length - 1) = some e ∧
        (swissPairings [⟨1, -1⟩, ⟨2, -1⟩, ⟨3, -1⟩] s3).1 =
          [MatchRecord.mk e.id (-1)] :=
  swissPairings_all_byes_last_player [⟨1, -1⟩, ⟨2, -1⟩, ⟨3, -1⟩] s3
    (by decide) (by decide) (by decide)

/-- Witness for claim C2: two players who already played each other; the
step must pair them (no other candidate), and the conclusion instantiates to
the only candidate index 1. -/
theorem pairStep_rematch_only_if_forced_witness :
    rematchCheck [⟨1, 2⟩] 1 (ent 2 "B").id = true :=
  pairStep_rematch_only_if_forced [⟨1, 2⟩] [ent 1 "A", ent 2 "B"]
    1 2 "A" "B" [] rfl (by decide) 1 (by decide) (ent 2 "B") rfl

/-- Claim C6: when a `swissPairings` call completes over standings whose
player ids are duplicate-free, no player id occurs in more than one output
tuple (the flattened id list of the output is duplicate-free). -/
theorem swissPairings_ids_unique (hist : List MatchRecord) (s : List Entry)
    (bs : List MatchRecord) (ret : List Pairing)
    (h : swissPairings hist s = (bs, some ret))
    (hnd : (s.map Entry.id).Nodup) :
    (pairIds ret).Nodup :=
  (swissLoopAux_nodup hist (s.length + 1) s bs ret h hnd).1

/-- Witness for claim C6 on the four-player standings. -/
theorem swissPairings_ids_unique_witness :
    (pairIds [(1, "A", 2, "B"), (3, "C", 4, "D")]).Nodup :=
  swissPairings_ids_unique [] s4 []
    [(1, "A", 2, "B"), (3, "C", 4, "D")] rfl (by decide)

/-- Claim C5: the list returned by `playerStandings` is ordered with wins
non-increasing, and among entries with equal wins the OMW value is
non-increasing; when no matches have been played the result is the fallback
ranking by wins alone. -/
theorem playerStandings_sorted (db : DB) :
    (playerStandings db).Pairwise (fun a b =>
      b.wins ≤ a.wins ∧ (a.wins = b.wins → omw db b.id ≤ omw db a.id)) ∧
    (db.match_history = [] →
      playerStandings db = (db.players.map toEntry).mergeSort winsLe) := by
  constructor
  · by_cases hh : db.match_history.isEmpty
    · have hnil : db.match_history = [] := by
        cases hdb : db.match_history with
        | nil => rfl
        | cons m t => rw [hdb] at hh; cases hh
      have hps : player_standings db = [] := by simp [player_standings, hh]
      unfold playerStandings
      rw [hps]
      simp only [List.length_nil, if_pos rfl]
      apply List.Pairwise.imp ?_
        (List.sorted_mergeSort winsLe_trans winsLe_total (db.players.map toEntry))
      intro a b hle
      simp only [winsLe, decide_eq_true_eq] at hle
      exact ⟨hle, fun _ => by rw [omw_empty db hnil, omw_empty db hnil]⟩
    · have hps : player_standings db =
          (db.players.map toEntry).mergeSort (standingsLe db) := by
        simp [player_standings, hh]
      unfold playerStandings
      rw [hps]
      by_cases hlen : ((db.players.map toEntry).mergeSort (standingsLe db)).length = 0
      · rw [if_pos hlen]
        have hnilp : db.players.map toEntry = [] := by
          have hperm :=
            (List.mergeSort_perm (db.players.map toEntry) (standingsLe db)).length_eq
          exact List.eq_nil_of_length_eq_zero (by omega)
        rw [hnilp]
        simp
      · rw [if_neg hlen]
        apply List.Pairwise.imp ?_
          (List.sorted_mergeSort (standingsLe_trans db) (standingsLe_total db)
            (db.players.map toEntry))
        intro a b hle
        simp only [standingsLe, Bool.or_eq_true, Bool.and_eq_true,
          decide_eq_true_eq, beq_iff_eq] at hle
        rcases hle with hlt | ⟨heq, hom⟩
        · exact ⟨Nat.le_of_lt hlt, fun heq2 => by omega⟩
        · exact ⟨Nat.le_of_eq heq.symm, fun _ => hom⟩
  · intro hnil
    have hps : player_standings db = [] := by simp [player_standings, hnil]
    unfold playerStandings
    rw [hps]
    simp

/-- Claim C7: after each state-mutating operation (`deleteMatches`,
`registerPlayer`, `reportBye`, and a successful `reportMatch`) every player
still satisfies `matches_played = wins + losses`, provided the invariant held
before. -/
theorem ops_keep_counterInv (db : DB) (pid w l : Int) (nm : String)
    (h : counterInv db) :
    counterInv (deleteMatches db) ∧ counterInv (registerPlayer db pid nm) ∧
    counterInv (reportBye db w) ∧
    ∀ db2, reportMatch db w l = Except.ok db2 → counterInv db2 := by
  refine ⟨?_, ?_, ?_, ?_⟩
  · intro p hp
    simp only [deleteMatches, List.mem_map] at hp
    obtain ⟨q, hq, rfl⟩ := hp
    rfl
  · intro p hp
    simp only [registerPlayer, List.mem_append, List.mem_singleton] at hp
    rcases hp with hp | rfl
    · exact h p hp
    · rfl
  · intro p hp
    simp only [reportBye, List.mem_map] at hp
    obtain ⟨q, hq, rfl⟩ := hp
    have hinv := h q hq
    by_cases hw : q.id = w <;> simp [bumpWinner, beq_iff_eq, hw] <;> omega
  · intro db2 hdb2
    unfold reportMatch at hdb2
    split at hdb2
    · injection hdb2 with hdb2
      subst hdb2
      intro p hp
      simp only [List.mem_map] at hp
      obtain ⟨q, hq, rfl⟩ := hp
      exact bump_keeps_inv w l q (h q hq)
    · cases hdb2

/-- Witness for claim C7 on a one-player database. -/
theorem ops_keep_counterInv_witness :
    counterInv (deleteMatches db2) ∧ counterInv (registerPlayer db2 5 "N") ∧
    counterInv (reportBye db2 1) ∧
    ∀ dbn, reportMatch db2 1 2 = Except.ok dbn → counterInv dbn :=
  ops_keep_counterInv db2 5 1 2 "N" (by unfold counterInv; decide)

/-- Claim C8: a `reportMatch` call whose winner or loser id is absent from
the store fails with the invalid-player error; since the transaction is
committed only at the end, the error leaves the stored state unchanged
(the embedding returns no successor state). -/
theorem reportMatch_invalid_player (db : DB) (winner loser : Int)
    (h : hasPlayer db winner = false ∨ hasPlayer db loser = false) :
    reportMatch db winner loser = .error .invalidPlayer := by
  unfold reportMatch
  rcases h with h | h <;> simp [h]

/-- Witness for claim C8: reporting a match against an unregistered id. -/
theorem reportMatch_invalid_player_witness :
    reportMatch db2 1 99 = .error .invalidPlayer :=
  reportMatch_invalid_player db2 1 99 (Or.inr (by decide))

/-- Claim C9, counterexample to the original wording: with the store down,
an operation does not surface a `StoreUnavailable` error — `connect`
swallows the underlying exception (returning `None` after printing), and
the caller fails with a `TypeError` instead. -/
theorem connect_down_not_storeUnavailable :
    connect false = none ∧
    playerStandingsRun false ⟨[], []⟩ = .error .typeError ∧
    (Except.error TError.typeError : Except TError (List Entry)) ≠
      .error .storeUnavailable := by
  refine ⟨rfl, rfl, ?_⟩
  intro h
  injection h with h2
  cases h2

/-- Claim C9 (corrected): when the store is unreachable, `connect` catches
and swallows the underlying exception and returns `None`; each core
operation then fails by raising a `TypeError` while unpacking that `None`
(so no operation silently returns incomplete data, but the surfaced error is
a `TypeError` without context, not a `StoreUnavailable` error). -/
theorem store_down_raises_typeError (db : DB) (w l : Int) :
    connect false = none ∧
    playerStandingsRun false db = .error .typeError ∧
    reportMatchRun false db w l = .error .typeError ∧
    deleteMatchesRun false db = .error .typeError ∧
    swissPairingsRun false db = .error .typeError :=
  ⟨rfl, rfl, rfl, rfl, rfl⟩

end Tournament
